import Mathlib

/-!
Verification of the event-ingestion backend of the `link-fs` repository.

The development shallowly embeds the TypeScript sources:

* `DeepseekService` (src/unnamed/part_000): JSON extraction from model output,
  zod schema validation (`EventSchema`), the Qiniu verification client with its
  429 retry/backoff loop, and the `fetchEventsFromAI` orchestration;
* `EventsService` (src/unnamed/part_003): content hashing, batch upsert and the
  paginated list query with its date-range filter;
* the older `EventsService` (src/backend/src/events/events.service.ts) that
  coexists in the repository with different date-filter semantics;
* `EventsController.getEventsList` (src/backend/src/events/events.controller.ts).

External primitives that are not part of the repository (the JavaScript `JSON`
builtin, `crypto` MD5, the SQL insert-or-update statement, SQL `DATE` ordering)
are modelled from the spec; each such definition carries a doc comment starting
with `Modelled from the spec:`.
-/

/-- JSON values.  Modelled from the spec: the repository parses and serialises
model output with the JavaScript `JSON` builtin ("produce either a parsed JSON
value or a definite no-value-found result").  Numbers are modelled as integers
and insignificant whitespace is not modelled. -/
inductive Json : Type where
  | null : Json
  | bool : Bool → Json
  | num : Int → Json
  | str : String → Json
  | arr : List Json → Json
  | obj : List (String × Json) → Json

/-- The decimal digit character for `d` (defaulting to `'0'` off-range). -/
def digitChar : Nat → Char
  | 0 => '0' | 1 => '1' | 2 => '2' | 3 => '3' | 4 => '4'
  | 5 => '5' | 6 => '6' | 7 => '7' | 8 => '8' | 9 => '9'
  | _ => '0'

/-- Big-endian decimal digits of `n`, with explicit fuel (`natChars` supplies
enough). -/
def natCharsAux : Nat → Nat → List Char
  | 0, _ => []
  | _, 0 => []
  | fuel + 1, n + 1 => natCharsAux fuel ((n + 1) / 10) ++ [digitChar ((n + 1) % 10)]

/-- Decimal representation of a natural number. -/
def natChars (n : Nat) : List Char := if n = 0 then ['0'] else natCharsAux (n + 1) n

/-- Decimal representation of an integer, as emitted by `JSON.stringify`. -/
def strNum (i : Int) : List Char :=
  if i < 0 then '-' :: natChars i.natAbs else natChars i.natAbs

/-- String-body escaping performed by `JSON.stringify`: quote and backslash are
escaped; all other characters are emitted verbatim. -/
def escapeChars : List Char → List Char
  | [] => []
  | c :: t => if c = '"' ∨ c = '\\' then '\\' :: c :: escapeChars t else c :: escapeChars t

mutual
/-- Modelled from the spec: `JSON.stringify` on the `Json` model. -/
def strV : Json → List Char
  | .null => 'n' :: ['u', 'l', 'l']
  | .bool b => if b then 't' :: ['r', 'u', 'e'] else 'f' :: ['a', 'l', 's', 'e']
  | .num i => strNum i
  | .str s => '"' :: (escapeChars s.data ++ ['"'])
  | .arr xs => '[' :: (strElems xs ++ [']'])
  | .obj kvs => '{' :: (strMembers kvs ++ ['}'])

/-- Comma-separated serialisation of array elements. -/
def strElems : List Json → List Char
  | [] => []
  | [x] => strV x
  | x :: y :: t => strV x ++ ',' :: strElems (y :: t)

/-- Comma-separated serialisation of object members. -/
def strMembers : List (String × Json) → List Char
  | [] => []
  | [(k, v)] => '"' :: (escapeChars k.data ++ '"' :: ':' :: strV v)
  | (k, v) :: p :: t =>
    ('"' :: (escapeChars k.data ++ '"' :: ':' :: strV v)) ++ ',' :: strMembers (p :: t)
end

mutual
/-- Structural size of a `Json` value, used as the fuel bound of the parser. -/
def sizeV : Json → Nat
  | .arr xs => 1 + sizeL xs
  | .obj kvs => 1 + sizeO kvs
  | _ => 1

/-- Size of a list of array elements. -/
def sizeL : List Json → Nat
  | [] => 1
  | x :: t => sizeV x + sizeL t

/-- Size of a list of object members. -/
def sizeO : List (String × Json) → Nat
  | [] => 1
  | (_, v) :: t => sizeV v + sizeO t
end

/-- Parse a JSON string body (after the opening quote), undoing `escapeChars`;
returns the body and the input remaining after the closing quote. -/
def parseStr : List Char → Option (List Char × List Char)
  | [] => none
  | c :: r =>
    if c = '"' then some ([], r)
    else if c = '\\' then
      match r with
      | [] => none
      | e :: r2 =>
        if e = '"' ∨ e = '\\' then (parseStr r2).map (fun p => (e :: p.1, p.2)) else none
    else (parseStr r).map (fun p => (c :: p.1, p.2))

/-- Parse a maximal run of decimal digits into a natural number. -/
def parseNatPart (cs : List Char) : Option (Nat × List Char) :=
  let ds := cs.takeWhile (·.isDigit)
  if ds.isEmpty then none
  else some (ds.foldl (fun a c => 10 * a + (c.toNat - 48)) 0, cs.dropWhile (·.isDigit))

/-- Parse a JSON number (optional minus sign followed by digits). -/
def parseNum (cs : List Char) : Option (Json × List Char) :=
  match cs with
  | [] => none
  | c :: r =>
    if c = '-' then (parseNatPart r).map (fun p => (Json.num (-(p.1 : Int)), p.2))
    else (parseNatPart (c :: r)).map (fun p => (Json.num ((p.1 : Nat) : Int), p.2))

mutual
/-- Modelled from the spec: the recursive-descent core of `JSON.parse` on the
`Json` model, with explicit fuel. -/
def parseVal : Nat → List Char → Option (Json × List Char)
  | 0, _ => none
  | _ + 1, [] => none
  | fuel + 1, c :: rest =>
    if c = '"' then (parseStr rest).map (fun p => (Json.str ⟨p.1⟩, p.2))
    else if c = '[' then (parseArr fuel rest).map (fun p => (Json.arr p.1, p.2))
    else if c = '{' then (parseObj fuel rest).map (fun p => (Json.obj p.1, p.2))
    else if c = 't' then
      match rest with
      | 'r' :: 'u' :: 'e' :: r => some (Json.bool true, r)
      | _ => none
    else if c = 'f' then
      match rest with
      | 'a' :: 'l' :: 's' :: 'e' :: r => some (Json.bool false, r)
      | _ => none
    else if c = 'n' then
      match rest with
      | 'u' :: 'l' :: 'l' :: r => some (Json.null, r)
      | _ => none
    else if c = '-' ∨ c.isDigit then parseNum (c :: rest)
    else none

/-- Parse the elements of a JSON array (after the opening bracket). -/
def parseArr : Nat → List Char → Option (List Json × List Char)
  | 0, _ => none
  | _ + 1, [] => none
  | fuel + 1, c :: rest =>
    if c = ']' then some ([], rest)
    else
      match parseVal fuel (c :: rest) with
      | none => none
      | some (v, r1) =>
        match r1 with
        | ',' :: r2 => (parseArr fuel r2).map (fun p => (v :: p.1, p.2))
        | ']' :: r2 => some ([v], r2)
        | _ => none

/-- Parse the members of a JSON object (after the opening brace). -/
def parseObj : Nat → List Char → Option (List (String × Json) × List Char)
  | 0, _ => none
  | _ + 1, [] => none
  | fuel + 1, c :: rest =>
    if c = '}' then some ([], rest)
    else if c = '"' then
      match parseStr rest with
      | none => none
      | some (k, r1) =>
        match r1 with
        | ':' :: r2 =>
          match parseVal fuel r2 with
          | none => none
          | some (v, r3) =>
            match r3 with
            | ',' :: r4 => (parseObj fuel r4).map (fun p => ((⟨k⟩, v) :: p.1, p.2))
            | '}' :: r4 => some ([(⟨k⟩, v)], r4)
            | _ => none
        | _ => none
    else none
end

/-- Modelled from the spec: `JSON.parse` — parse the whole text, requiring full
consumption, returning `none` where the builtin would throw. -/
def jsonParseChars (cs : List Char) : Option Json :=
  match parseVal (cs.length + 1) cs with
  | some (v, []) => some v
  | _ => none

theorem sizeV_pos (x : Json) : 1 ≤ sizeV x := by
  cases x <;> simp [sizeV]

theorem sizeL_pos (xs : List Json) : 1 ≤ sizeL xs := by
  cases xs with
  | nil => simp [sizeL]
  | cons x t => have := sizeV_pos x; simp [sizeL]; omega

theorem sizeO_pos (kvs : List (String × Json)) : 1 ≤ sizeO kvs := by
  cases kvs with
  | nil => simp [sizeO]
  | cons p t => obtain ⟨k, v⟩ := p; have := sizeV_pos v; simp [sizeO]; omega

theorem digitChar_isDigit (d : Nat) : (digitChar d).isDigit = true := by
  unfold digitChar; split <;> decide

theorem digitChar_toNat (d : Nat) (h : d < 10) : (digitChar d).toNat - 48 = d := by
  interval_cases d <;> decide

theorem ne_of_isDigit {c d : Char} (h : c.isDigit = true) (h2 : d.isDigit = false) : c ≠ d := by
  intro e; rw [e, h2] at h; cases h

theorem natCharsAux_digits :
    ∀ fuel n c, c ∈ natCharsAux fuel n → c.isDigit = true := by
  intro fuel
  induction fuel with
  | zero => intro n c h; simp [natCharsAux] at h
  | succ f ih =>
    intro n c h
    cases n with
    | zero => simp [natCharsAux] at h
    | succ m =>
      simp only [natCharsAux, List.mem_append, List.mem_singleton] at h
      rcases h with h | h
      · exact ih _ _ h
      · rw [h]; exact digitChar_isDigit _

theorem natCharsAux_ne_nil (fuel n : Nat) (h1 : n ≠ 0) (h2 : fuel ≠ 0) :
    natCharsAux fuel n ≠ [] := by
  cases fuel with
  | zero => exact absurd rfl h2
  | succ f =>
    cases n with
    | zero => exact absurd rfl h1
    | succ m => simp [natCharsAux]

theorem foldl_natCharsAux :
    ∀ fuel n acc, n ≤ fuel →
      (natCharsAux fuel n).foldl (fun a c => 10 * a + (c.toNat - 48)) acc
        = acc * 10 ^ (natCharsAux fuel n).length + n := by
  intro fuel
  induction fuel with
  | zero => intro n acc h; interval_cases n; simp [natCharsAux]
  | succ f ih =>
    intro n acc h
    cases n with
    | zero => simp [natCharsAux]
    | succ m =>
      have hdiv : (m + 1) / 10 ≤ f := by
        have : (m + 1) / 10 < m + 1 := Nat.div_lt_self (Nat.succ_pos m) (by omega)
        omega
      simp only [natCharsAux, List.foldl_append, List.foldl_cons, List.foldl_nil,
        List.length_append, List.length_cons, List.length_nil]
      rw [ih _ acc hdiv, digitChar_toNat _ (Nat.mod_lt _ (by omega))]
      have hmod := Nat.div_add_mod (m + 1) 10
      ring_nf
      omega

theorem natChars_digits (n : Nat) (c : Char) (h : c ∈ natChars n) : c.isDigit = true := by
  unfold natChars at h
  split at h
  · simp at h; rw [h]; decide
  · exact natCharsAux_digits _ _ _ h

theorem natChars_ne_nil (n : Nat) : natChars n ≠ [] := by
  unfold natChars
  split
  · simp
  · exact natCharsAux_ne_nil _ _ (by assumption) (by omega)

theorem foldl_natChars (n : Nat) :
    (natChars n).foldl (fun a c => 10 * a + (c.toNat - 48)) 0 = n := by
  unfold natChars
  split
  · simp_all
  · rw [foldl_natCharsAux _ _ _ (by omega)]; simp

theorem takeWhile_append_of_all {p : Char → Bool} :
    ∀ (l rest : List Char), (∀ c ∈ l, p c = true) →
      (∀ c, rest.head? = some c → p c = false) →
      (l ++ rest).takeWhile p = l ∧ (l ++ rest).dropWhile p = rest := by
  intro l
  induction l with
  | nil =>
    intro rest _ h2
    cases rest with
    | nil => simp
    | cons c t =>
      have := h2 c rfl
      simp [List.takeWhile, List.dropWhile, this]
  | cons a l ih =>
    intro rest h1 h2
    have ha : p a = true := h1 a (by simp)
    have := ih rest (fun c hc => h1 c (by simp [hc])) h2
    simp [List.takeWhile, List.dropWhile, ha, this.1, this.2]

theorem parseNatPart_natChars (n : Nat) (rest : List Char)
    (hrest : ∀ c, rest.head? = some c → c.isDigit = false) :
    parseNatPart (natChars n ++ rest) = some (n, rest) := by
  have h := takeWhile_append_of_all (natChars n) rest (fun c hc => natChars_digits n c hc) hrest
  unfold parseNatPart
  simp only [h.1, h.2]
  rw [if_neg (by simpa using natChars_ne_nil n)]
  rw [foldl_natChars]

theorem parseNum_strNum (i : Int) (rest : List Char)
    (hrest : ∀ c, rest.head? = some c → c.isDigit = false) :
    parseNum (strNum i ++ rest) = some (Json.num i, rest) := by
  unfold strNum
  split
  · rename_i hneg
    simp only [List.cons_append]
    rw [parseNum.eq_def]
    simp only [reduceIte]
    rw [parseNatPart_natChars _ _ hrest]
    have h2 : (-(i.natAbs : Int)) = i := by omega
    simp only [Option.map_some']
    rw [h2]
  · rename_i hpos
    cases hc : natChars i.natAbs with
    | nil => exact absurd hc (natChars_ne_nil _)
    | cons c t =>
      have hcd : c.isDigit = true := natChars_digits _ c (by rw [hc]; simp)
      rw [parseNum.eq_def]
      simp only [List.cons_append]
      rw [if_neg (ne_of_isDigit hcd (by decide))]
      rw [show c :: (t ++ rest) = natChars i.natAbs ++ rest by rw [hc]; simp]
      rw [parseNatPart_natChars _ _ hrest]
      have h2 : ((i.natAbs : Int)) = i := by omega
      simp only [Option.map_some']
      rw [h2]

theorem parseStr_escape :
    ∀ (l rest : List Char), parseStr (escapeChars l ++ '"' :: rest) = some (l, rest) := by
  intro l
  induction l with
  | nil => intro rest; simp [escapeChars, parseStr.eq_def]
  | cons c t ih =>
    intro rest
    by_cases hc : c = '"' ∨ c = '\\'
    · rw [show escapeChars (c :: t) = '\\' :: c :: escapeChars t by simp [escapeChars, hc]]
      simp only [List.cons_append]
      rw [parseStr.eq_def]
      simp only [reduceIte]
      rw [if_pos hc, ih rest]
      rfl
    · push_neg at hc
      rw [show escapeChars (c :: t) = c :: escapeChars t by simp [escapeChars, hc]]
      simp only [List.cons_append]
      rw [parseStr.eq_def]
      simp only []
      rw [if_neg hc.1, if_neg hc.2, ih rest]
      rfl

theorem strV_shape (x : Json) :
    ∃ c t, strV x = c :: t ∧
      (c = '"' ∨ c = '[' ∨ c = '{' ∨ c = 't' ∨ c = 'f' ∨ c = 'n' ∨ c = '-' ∨ c.isDigit = true) := by
  cases x with
  | null => exact ⟨'n', ['u', 'l', 'l'], by simp [strV], by tauto⟩
  | bool b =>
    cases b with
    | true => exact ⟨'t', ['r', 'u', 'e'], by simp [strV], by tauto⟩
    | false => exact ⟨'f', ['a', 'l', 's', 'e'], by simp [strV], by tauto⟩
  | num i =>
    by_cases hi : i < 0
    · exact ⟨'-', natChars i.natAbs, by simp [strV, strNum, hi], by tauto⟩
    · have hne := natChars_ne_nil i.natAbs
      cases hc : natChars i.natAbs with
      | nil => exact absurd hc hne
      | cons c t =>
        refine ⟨c, t, by simp [strV, strNum, hi, hc], ?_⟩
        have : c.isDigit = true := natChars_digits _ _ (by rw [hc]; simp)
        tauto
  | str s => exact ⟨'"', escapeChars s.data ++ ['"'], by simp [strV], by tauto⟩
  | arr xs => exact ⟨'[', strElems xs ++ [']'], by simp [strV], by tauto⟩
  | obj kvs => exact ⟨'{', strMembers kvs ++ ['}'], by simp [strV], by tauto⟩

theorem parseVal_strNum (f : Nat) (i : Int) (cs : List Char) :
    parseVal (f + 1) (strNum i ++ cs) = parseNum (strNum i ++ cs) := by
  unfold strNum
  split
  · simp [parseVal.eq_def]
  · cases hc : natChars i.natAbs with
    | nil => exact absurd hc (natChars_ne_nil _)
    | cons c t =>
      have hcd : c.isDigit = true := natChars_digits _ c (by rw [hc]; simp)
      simp only [List.cons_append]
      rw [parseVal.eq_def]
      simp only []
      rw [if_neg (ne_of_isDigit hcd (by decide)), if_neg (ne_of_isDigit hcd (by decide)),
          if_neg (ne_of_isDigit hcd (by decide)), if_neg (ne_of_isDigit hcd (by decide)),
          if_neg (ne_of_isDigit hcd (by decide)), if_neg (ne_of_isDigit hcd (by decide)),
          if_pos (Or.inr hcd)]

theorem parse_roundtrip : ∀ fuel : Nat,
    (∀ (x : Json) (rest : List Char), sizeV x ≤ fuel →
      (∀ c, rest.head? = some c → c.isDigit = false) →
      parseVal fuel (strV x ++ rest) = some (x, rest)) ∧
    (∀ (xs : List Json) (rest : List Char), sizeL xs ≤ fuel →
      parseArr fuel (strElems xs ++ ']' :: rest) = some (xs, rest)) ∧
    (∀ (kvs : List (String × Json)) (rest : List Char), sizeO kvs ≤ fuel →
      parseObj fuel (strMembers kvs ++ '}' :: rest) = some (kvs, rest)) := by
  intro fuel
  induction fuel with
  | zero =>
    refine ⟨?_, ?_, ?_⟩
    · intro x rest h _; have := sizeV_pos x; omega
    · intro xs rest h; have := sizeL_pos xs; omega
    · intro kvs rest h; have := sizeO_pos kvs; omega
  | succ f ih =>
    obtain ⟨ihV, ihA, ihO⟩ := ih
    refine ⟨?_, ?_, ?_⟩
    · intro x rest hsize hrest
      cases x with
      | null =>
        rw [show strV Json.null = ['n', 'u', 'l', 'l'] from by simp [strV]]
        simp [parseVal.eq_def]
      | bool b =>
        cases b with
        | true =>
          rw [show strV (Json.bool true) = ['t', 'r', 'u', 'e'] from by simp [strV]]
          simp [parseVal.eq_def]
        | false =>
          rw [show strV (Json.bool false) = ['f', 'a', 'l', 's', 'e'] from by simp [strV]]
          simp [parseVal.eq_def]
      | num i =>
        rw [show strV (Json.num i) = strNum i from by simp [strV], parseVal_strNum]
        exact parseNum_strNum i rest hrest
      | str s =>
        rw [show strV (Json.str s) = '"' :: (escapeChars s.data ++ ['"']) from by simp [strV]]
        simp only [List.cons_append, List.append_assoc, List.singleton_append]
        rw [parseVal.eq_def]
        simp only [reduceIte]
        rw [parseStr_escape]
        rfl
      | arr xs =>
        rw [show strV (Json.arr xs) = '[' :: (strElems xs ++ [']']) from by simp [strV]]
        simp only [List.cons_append, List.append_assoc, List.singleton_append, List.nil_append]
        rw [parseVal.eq_def]
        simp only [List.nil_append]
        rw [if_neg (by decide : ¬('[' = '"')), if_pos trivial]
        rw [ihA xs rest (by simp [sizeV] at hsize; omega)]
        rfl
      | obj kvs =>
        rw [show strV (Json.obj kvs) = '{' :: (strMembers kvs ++ ['}']) from by simp [strV]]
        simp only [List.cons_append, List.append_assoc, List.singleton_append, List.nil_append]
        rw [parseVal.eq_def]
        simp only [List.nil_append]
        rw [if_neg (by decide : ¬('{' = '"')), if_neg (by decide : ¬('{' = '[')), if_pos trivial]
        rw [ihO kvs rest (by simp [sizeV] at hsize; omega)]
        rfl
    · intro xs rest hsize
      cases xs with
      | nil =>
        rw [show strElems [] = [] from by simp [strElems]]
        simp [parseArr.eq_def]
      | cons x t =>
        obtain ⟨c, ct, hx, hstart⟩ := strV_shape x
        have hcne : c ≠ ']' := by
          rcases hstart with h | h | h | h | h | h | h | h <;>
            first
              | (subst h; decide)
              | (exact ne_of_isDigit h (by decide))
        cases t with
        | nil =>
          rw [show strElems [x] = strV x from by simp [strElems]]
          rw [hx]
          simp only [List.cons_append]
          rw [parseArr.eq_def]
          simp only []
          rw [if_neg hcne]
          rw [show c :: (ct ++ ']' :: rest) = strV x ++ ']' :: rest from by rw [hx]; simp]
          rw [ihV x (']' :: rest) (by simp [sizeL] at hsize; omega)
            (by intro c' h'; simp at h'; subst h'; decide)]
          rfl
        | cons y t2 =>
          rw [show strElems (x :: y :: t2) = strV x ++ ',' :: strElems (y :: t2) from by
            simp [strElems]]
          rw [hx]
          simp only [List.cons_append, List.append_assoc]
          rw [parseArr.eq_def]
          simp only []
          rw [if_neg hcne]
          rw [show c :: (ct ++ (',' :: (strElems (y :: t2) ++ ']' :: rest)))
                = strV x ++ ',' :: (strElems (y :: t2) ++ ']' :: rest) from by rw [hx]; simp]
          rw [ihV x _ (by
              have h1 := sizeL_pos (y :: t2)
              have h2 : sizeL (x :: y :: t2) = sizeV x + sizeL (y :: t2) := by simp [sizeL]
              omega)
            (by intro c' h'; simp at h'; subst h'; decide)]
          simp only []
          rw [ihA (y :: t2) rest (by
            have h1 := sizeV_pos x
            have h2 : sizeL (x :: y :: t2) = sizeV x + sizeL (y :: t2) := by simp [sizeL]
            omega)]
          rfl
    · intro kvs rest hsize
      cases kvs with
      | nil =>
        rw [show strMembers [] = [] from by simp [strMembers]]
        simp [parseObj.eq_def]
      | cons kv t =>
        obtain ⟨k, v⟩ := kv
        cases t with
        | nil =>
          rw [show strMembers [(k, v)] = '"' :: (escapeChars k.data ++ '"' :: ':' :: strV v)
            from by simp [strMembers]]
          simp only [List.cons_append, List.append_assoc]
          rw [parseObj.eq_def]
          simp only [reduceIte]
          rw [show escapeChars k.data ++ '"' :: ':' :: (strV v ++ '}' :: rest)
                = escapeChars k.data ++ '"' :: (':' :: (strV v ++ '}' :: rest)) from by simp]
          rw [parseStr_escape]
          simp only []
          rw [ihV v ('}' :: rest) (by simp [sizeO] at hsize; omega)
            (by intro c' h'; simp at h'; subst h'; decide)]
          rfl
        | cons p t2 =>
          rw [show strMembers ((k, v) :: p :: t2)
                = ('"' :: (escapeChars k.data ++ '"' :: ':' :: strV v)) ++ ',' :: strMembers (p :: t2)
            from by simp [strMembers]]
          simp only [List.cons_append, List.append_assoc]
          rw [parseObj.eq_def]
          simp only [reduceIte]
          rw [show escapeChars k.data ++ '"' :: ':' :: (strV v ++ ',' :: (strMembers (p :: t2) ++ '}' :: rest))
                = escapeChars k.data ++ '"' :: (':' :: (strV v ++ ',' :: (strMembers (p :: t2) ++ '}' :: rest))) from by simp]
          rw [parseStr_escape]
          simp only []
          rw [ihV v _ (by
              have h1 := sizeO_pos (p :: t2)
              have h2 : sizeO ((k, v) :: p :: t2) = sizeV v + sizeO (p :: t2) := by simp [sizeO]
              omega)
            (by intro c' h'; simp at h'; subst h'; decide)]
          simp only []
          rw [ihO (p :: t2) rest (by
            have h1 := sizeV_pos v
            have h2 : sizeO ((k, v) :: p :: t2) = sizeV v + sizeO (p :: t2) := by simp [sizeO]
            omega)]
          rfl

theorem size_le_str : ∀ n : Nat,
    (∀ x, sizeV x ≤ n → sizeV x ≤ (strV x).length) ∧
    (∀ xs, sizeL xs ≤ n → sizeL xs ≤ (strElems xs).length + 1) ∧
    (∀ kvs, sizeO kvs ≤ n → sizeO kvs ≤ (strMembers kvs).length + 1) := by
  intro n
  induction n with
  | zero =>
    refine ⟨?_, ?_, ?_⟩
    · intro x h; have := sizeV_pos x; omega
    · intro xs h; have := sizeL_pos xs; omega
    · intro kvs h; have := sizeO_pos kvs; omega
  | succ n ih =>
    obtain ⟨ihV, ihA, ihO⟩ := ih
    refine ⟨?_, ?_, ?_⟩
    · intro x h
      cases x with
      | null => simp [sizeV, strV]
      | bool b => cases b <;> simp [sizeV, strV]
      | num i =>
        have h1 : (strNum i).length ≥ 1 := by
          unfold strNum
          split
          · simp
          · cases hc : natChars i.natAbs with
            | nil => exact absurd hc (natChars_ne_nil _)
            | cons c t => simp
        simp only [sizeV, strV]
        omega
      | str s => simp [sizeV, strV]
      | arr xs =>
        have h2 : sizeV (Json.arr xs) = 1 + sizeL xs := by simp [sizeV]
        have h3 : sizeL xs ≤ n := by have := sizeL_pos xs; omega
        have h4 := ihA xs h3
        have h5 : (strV (Json.arr xs)).length = (strElems xs).length + 2 := by
          simp [strV]
        omega
      | obj kvs =>
        have h2 : sizeV (Json.obj kvs) = 1 + sizeO kvs := by simp [sizeV]
        have h3 : sizeO kvs ≤ n := by have := sizeO_pos kvs; omega
        have h4 := ihO kvs h3
        have h5 : (strV (Json.obj kvs)).length = (strMembers kvs).length + 2 := by
          simp [strV]
        omega
    · intro xs h
      cases xs with
      | nil => simp [sizeL, strElems]
      | cons x t =>
        have h2 : sizeL (x :: t) = sizeV x + sizeL t := by simp [sizeL]
        have h3 : sizeV x ≤ n := by have := sizeL_pos t; omega
        have h4 : sizeL t ≤ n := by have := sizeV_pos x; omega
        have h5 := ihV x h3
        cases t with
        | nil =>
          have h6 : strElems [x] = strV x := by simp [strElems]
          have h7 : sizeL ([] : List Json) = 1 := by simp [sizeL]
          rw [h6]
          omega
        | cons y t2 =>
          have h6 : (strElems (x :: y :: t2)).length
              = (strV x).length + 1 + (strElems (y :: t2)).length := by
            simp [strElems]; omega
          have h8 := ihA (y :: t2) h4
          omega
    · intro kvs h
      cases kvs with
      | nil => simp [sizeO, strMembers]
      | cons kv t =>
        obtain ⟨k, v⟩ := kv
        have h2 : sizeO ((k, v) :: t) = sizeV v + sizeO t := by simp [sizeO]
        have h3 : sizeV v ≤ n := by have := sizeO_pos t; omega
        have h4 : sizeO t ≤ n := by have := sizeV_pos v; omega
        have h5 := ihV v h3
        cases t with
        | nil =>
          have h6 : (strMembers [(k, v)]).length = (escapeChars k.data).length + 3 + (strV v).length := by
            simp [strMembers]; omega
          have h7 : sizeO ([] : List (String × Json)) = 1 := by simp [sizeO]
          omega
        | cons p t2 =>
          have h6 : (strMembers ((k, v) :: p :: t2)).length
              = (escapeChars k.data).length + 3 + (strV v).length + 1
                + (strMembers (p :: t2)).length := by
            simp [strMembers]; omega
          have h8 := ihO (p :: t2) h4
          omega

theorem sizeV_le_length (x : Json) : sizeV x ≤ (strV x).length :=
  (size_le_str (sizeV x)).1 x le_rfl

theorem parseVal_strV (x : Json) (fuel : Nat) (h : sizeV x ≤ fuel) :
    parseVal fuel (strV x) = some (x, []) := by
  have := (parse_roundtrip fuel).1 x [] h (by intro c hc; simp at hc)
  simpa using this

theorem jsonParse_strV (x : Json) : jsonParseChars (strV x) = some x := by
  unfold jsonParseChars
  rw [parseVal_strV x _ (by have := sizeV_le_length x; omega)]

/-- Last-wins member lookup on an object member list (JavaScript object
construction keeps the last duplicate key, and `JSON.parse` builds objects this
way). -/
def jlookup : List (String × Json) → String → Option Json
  | [], _ => none
  | (k, v) :: t, key =>
    match jlookup t key with
    | some r => some r
    | none => if k = key then some v else none

/-- JavaScript property access `v.key` / `v?.[key]`: a member lookup on
objects, undefined (`none`) on every other value. -/
def jget (v : Json) (key : String) : Option Json :=
  match v with
  | Json.obj kvs => jlookup kvs key
  | _ => none

/-- JavaScript index access `v?.[i]`: element lookup on arrays, undefined
(`none`) on every other value. -/
def jindex (v : Json) (i : Nat) : Option Json :=
  match v with
  | Json.arr xs => xs.get? i
  | _ => none

theorem findIdx?_append_first (p : Char → Bool) :
    ∀ (pre : List Char) (c : Char) (t : List Char) (i : Nat), (∀ a ∈ pre, p a = false) →
      p c = true → List.findIdx? p (pre ++ c :: t) i = some (i + pre.length) := by
  intro pre
  induction pre with
  | nil => intro c t i _ hc; simp [List.findIdx?_cons, hc]
  | cons a pre ih =>
    intro c t i h hc
    have ha : p a = false := h a (by simp)
    simp only [List.cons_append, List.findIdx?_cons, ha, Bool.false_eq_true, if_false]
    rw [ih c t (i + 1) (fun x hx => h x (by simp [hx])) hc]
    simp only [List.length_cons, Option.some.injEq]
    omega

/-- JavaScript `String.lastIndexOf` on a character list. -/
def lastIndexOfChar (cs : List Char) (c : Char) : Option Nat :=
  match (cs.reverse).findIdx? (· = c) with
  | some i => some (cs.length - 1 - i)
  | none => none

namespace DeepseekService

/-- Shallow embedding of `DeepseekService.extractJsonArrayFromResponse`
(src/unnamed/part_000, lines 438-466), on the character list of the response
text: locate the first `[` and the last `]`, slice between them, `JSON.parse`
the slice and require an array; every failure (no brackets, end not after
start, parse error, non-array) yields `none`, as the source logs and returns
`null`. -/
def extractJsonArrayFromResponse (cs : List Char) : Option (List Json) :=
  match cs.findIdx? (· = '['), lastIndexOfChar cs ']' with
  | some arrayStart, some arrayEnd =>
    if arrayEnd ≤ arrayStart then none
    else
      match jsonParseChars ((cs.drop arrayStart).take (arrayEnd + 1 - arrayStart)) with
      | some (Json.arr xs) => some xs
      | _ => none
  | _, _ => none

/-- Shallow embedding of `DeepseekService.extractJsonObjectFromResponse`
(src/unnamed/part_000, lines 774-797): empty text is falsy and yields `null`;
otherwise slice from the first `{` to the last `}` and `JSON.parse` the slice,
with `null` on any failure. -/
def extractJsonObjectFromResponse (cs : List Char) : Option Json :=
  if cs.isEmpty then none
  else
    match cs.findIdx? (· = '{'), lastIndexOfChar cs '}' with
    | some objectStart, some objectEnd =>
      if objectEnd ≤ objectStart then none
      else jsonParseChars ((cs.drop objectStart).take (objectEnd + 1 - objectStart))
    | _, _ => none

theorem extractArr_strV (xs : List Json) :
    extractJsonArrayFromResponse (strV (Json.arr xs)) = some xs := by
  have hs : strV (Json.arr xs) = '[' :: (strElems xs ++ [']']) := by simp [strV]
  have h1 : (strV (Json.arr xs)).findIdx? (· = '[') = some 0 := by
    rw [hs]; simp [List.findIdx?_cons]
  have hrev : (strV (Json.arr xs)).reverse = ']' :: ((strElems xs).reverse ++ ['[']) := by
    rw [hs]
    simp
  have h2 : lastIndexOfChar (strV (Json.arr xs)) ']' = some ((strV (Json.arr xs)).length - 1) := by
    unfold lastIndexOfChar
    rw [hrev]
    simp [List.findIdx?_cons]
  have hlen : (strV (Json.arr xs)).length = (strElems xs).length + 2 := by
    rw [hs]; simp
  unfold extractJsonArrayFromResponse
  rw [h1, h2]
  simp only []
  rw [if_neg (by omega)]
  rw [List.drop_zero, show (strV (Json.arr xs)).length - 1 + 1 - 0 = (strV (Json.arr xs)).length
    from by omega]
  rw [List.take_length]
  rw [jsonParse_strV]

theorem extractArr_wrapped (pre post : List Char) (xs : List Json)
    (hpre : '[' ∉ pre) (hpost : ']' ∉ post) :
    extractJsonArrayFromResponse (pre ++ strV (Json.arr xs) ++ post) = some xs := by
  have hs : strV (Json.arr xs) = '[' :: (strElems xs ++ [']']) := by simp [strV]
  have hmlen : (strV (Json.arr xs)).length = (strElems xs).length + 2 := by rw [hs]; simp
  have h1 : (pre ++ strV (Json.arr xs) ++ post).findIdx? (· = '[') = some pre.length := by
    rw [hs]
    rw [show pre ++ ('[' :: (strElems xs ++ [']'])) ++ post
        = pre ++ '[' :: ((strElems xs ++ [']']) ++ post) from by simp]
    rw [findIdx?_append_first _ pre '[' _ 0 (fun a ha => by simp; intro he; exact hpre (he ▸ ha))
      (by simp)]
    simp
  have hrev : (pre ++ strV (Json.arr xs) ++ post).reverse
      = post.reverse ++ ']' :: ((strElems xs).reverse ++ '[' :: pre.reverse) := by
    rw [hs]
    simp
  have h2 : lastIndexOfChar (pre ++ strV (Json.arr xs) ++ post) ']'
      = some (pre.length + (strV (Json.arr xs)).length - 1) := by
    unfold lastIndexOfChar
    rw [hrev]
    rw [findIdx?_append_first _ post.reverse ']' _ 0
      (fun a ha => by simp; intro he; exact hpost (he ▸ (List.mem_reverse.mp ha)))
      (by simp)]
    simp only [Option.some.injEq]
    simp [List.length_append]
    omega
  unfold extractJsonArrayFromResponse
  rw [h1, h2]
  simp only []
  rw [if_neg (by omega)]
  rw [show pre ++ strV (Json.arr xs) ++ post = pre ++ (strV (Json.arr xs) ++ post) from by simp]
  rw [List.drop_left]
  rw [show pre.length + (strV (Json.arr xs)).length - 1 + 1 - pre.length
      = (strV (Json.arr xs)).length from by omega]
  rw [List.take_left]
  rw [jsonParse_strV]

end DeepseekService

/-- Modelled from the spec: SQL `DATE` ordering used by the query filters.  For
ISO `YYYY-MM-DD` strings, chronological order coincides with lexicographic
character order, which this implements (`dateLe a b` means `a` is on or before
`b`). -/
def dateLeAux : List Char → List Char → Bool
  | [], _ => true
  | _ :: _, [] => false
  | x :: xs, y :: ys => if x = y then dateLeAux xs ys else decide (x.toNat < y.toNat)

/-- `dateLe a b`: date `a` is on or before date `b` (SQL `a <= b`). -/
def dateLe (a b : String) : Bool := dateLeAux a.data b.data

/-- Substring test (SQL `LIKE '%needle%'` on a non-NULL column). -/
def containsSub (hay needle : List Char) : Bool :=
  hay.tails.any (fun t => needle.isPrefixOf t)

/-- SQL `column LIKE '%needle%'` where the column may be NULL (NULL matches
nothing). -/
def likeContains (hay : Option String) (needle : String) : Bool :=
  match hay with
  | none => false
  | some h => containsSub h.data needle.data

/-- JavaScript truthiness of an optional string: `undefined` and the empty
string are falsy, so `if (x)`-guarded filters treat both as absent. -/
def otruthy : Option String → Option String
  | none => none
  | some s => if s = "" then none else some s

/-- Whitespace recognised by JavaScript `String.trim` (the subset relevant
here). -/
def isWsChar (c : Char) : Bool :=
  c == ' ' || c == '\t' || c == '\n' || c == '\r'

/-- JavaScript `String.trim` on a character list. -/
def trimChars (cs : List Char) : List Char :=
  ((cs.dropWhile isWsChar).reverse.dropWhile isWsChar).reverse

/-- Shallow embedding of the zod output type `ParsedEvent` of `EventSchema`
(src/unnamed/part_000, lines 310-320).  zod's `.optional().nullable()` admits
an absent key, `null`, or a string; absent and `null` are both modelled as
`none` (every consumer in the repository collapses them with `?? null`). -/
structure ParsedEvent where
  title : String
  type : String
  venue : Option String
  address : Option String
  start_date : String
  end_date : Option String
  source_url : Option String
  price_range : Option String
  organizer : Option String
deriving DecidableEq, Repr

/-- The strict `^\d4-\d2-\d2$` pattern of `EventSchema.start_date` and
`end_date`: exactly ten characters, digits and two hyphens. -/
def isDatePattern (s : String) : Bool :=
  match s.data with
  | [c1, c2, c3, c4, c5, c6, c7, c8, c9, c10] =>
    c1.isDigit && c2.isDigit && c3.isDigit && c4.isDigit && c5 == '-' &&
    c6.isDigit && c7.isDigit && c8 == '-' && c9.isDigit && c10.isDigit
  | _ => false

/-- Helper for `isValidURL`: scan for `://`, accumulating the scheme. -/
def urlAux (scheme : List Char) : List Char → Bool
  | ':' :: '/' :: '/' :: tail => !scheme.isEmpty && scheme.all (·.isAlpha) && !tail.isEmpty
  | c :: tail => urlAux (scheme ++ [c]) tail
  | [] => false

/-- Modelled from the spec: `z.string().url()`'s "syntactically valid URL"
check (the WHATWG URL parser is not part of the repository); modelled as a
nonempty alphabetic scheme followed by `://` and a nonempty remainder. -/
def isValidURL (s : String) : Bool := urlAux [] s.data

/-- zod `z.string()` on a member that must be present: accepts exactly a JSON
string. -/
def reqStr (v : Option Json) : Option String :=
  match v with
  | some (Json.str s) => some s
  | _ => none

/-- zod `z.string()... .optional().nullable()` with an extra per-string check:
absent and `null` are accepted as `none`; a string is accepted iff `check`
holds; any other JSON value is rejected. -/
def optStr (check : String → Bool) (v : Option Json) : Option (Option String) :=
  match v with
  | none => some none
  | some Json.null => some none
  | some (Json.str s) => if check s then some (some s) else none
  | some _ => none

namespace EventSchema

/-- Shallow embedding of `EventSchema.safeParse` (src/unnamed/part_000, lines
310-320 and the zod object semantics): the input must be a JSON object with a
non-empty string `title`, a `type` that is exactly `"expo"` or `"concert"`, a
`start_date` matching the strict date pattern, an `end_date` that is absent,
`null` or a pattern-matching string, a `source_url` that is absent, `null` or a
syntactically valid URL, and free-text-or-null remaining fields.  It never
throws: every failure is `none`. -/
def safeParse (j : Json) : Option ParsedEvent :=
  match j with
  | Json.obj kvs =>
    match reqStr (jlookup kvs "title"), reqStr (jlookup kvs "type"),
        reqStr (jlookup kvs "start_date") with
    | some title, some ty, some sd =>
      if title.length ≥ 1 && (ty == "expo" || ty == "concert") && isDatePattern sd then
        match optStr isDatePattern (jlookup kvs "end_date"),
            optStr (fun _ => true) (jlookup kvs "venue"),
            optStr (fun _ => true) (jlookup kvs "address"),
            optStr isValidURL (jlookup kvs "source_url"),
            optStr (fun _ => true) (jlookup kvs "price_range"),
            optStr (fun _ => true) (jlookup kvs "organizer") with
        | some ed, some venue, some addr, some su, some pr, some org =>
          some ⟨title, ty, venue, addr, sd, ed, su, pr, org⟩
        | _, _, _, _, _, _ => none
      else none
    | _, _, _ => none
  | _ => none

end EventSchema

namespace DeepseekService

/-- The per-record validation loop of `parseAndValidateEvents`
(src/unnamed/part_000, lines 607-627): each raw record goes through
`EventSchema.safeParse`; valid records are collected in order, invalid ones are
counted and dropped without affecting their siblings. -/
def validateRecords : List Json → List ParsedEvent × Nat
  | [] => ([], 0)
  | item :: t =>
    let rest := validateRecords t
    match EventSchema.safeParse item with
    | some p => (p :: rest.1, rest.2)
    | none => (rest.1, rest.2 + 1)

/-- Outcome of one `fetch` of a chat-completions endpoint, as seen by the
embedded control flow: a transport exception, or a response with an HTTP
status and a body (`none` when `response.json()` would throw). -/
inductive FetchOutcome where
  | netError : FetchOutcome
  | response (status : Nat) (body : Option Json) : FetchOutcome

/-- `Response.ok` of the fetch API: status in the 2xx range. -/
def statusOk (s : Nat) : Bool := 200 ≤ s && s ≤ 299

/-- The expression `responseData?.choices?.[0]?.message?.content ?? ''`: the
value of the optional chain, with null/undefined replaced by the empty string
(the nullish coalescing keeps every other value, including falsy ones like
`false` and `0`). -/
def getMessageContent (body : Json) : Json :=
  let content := (((jget body "choices").bind (fun c => jindex c 0)).bind
    (fun m => jget m "message")).bind (fun m => jget m "content")
  match content with
  | none => Json.str ""
  | some Json.null => Json.str ""
  | some v => v

/-- What one attempt of `verifyEventWithQiniu` does with its fetch outcome:
`retryable` when the source takes the backoff path (HTTP 429, a transport
exception, or an exception thrown while reading the body), `terminal b` when
the loop returns `b` at this attempt (non-429 error status, unparseable
verification payload, missing/non-boolean `verified` field, or the boolean
`verified` value itself). -/
inductive AttemptRes where
  | retryable : AttemptRes
  | terminal (b : Bool) : AttemptRes
deriving DecidableEq, Repr

/-- Classify a single attempt of the verification loop, following the source
order: 429 first (backoff path), then `!response.ok` (immediate false), then
body parsing (a `response.json()` exception retries), then
`extractJsonObjectFromResponse` and the `verified` field (immediate results).

Non-string content values follow the JavaScript semantics of
`extractJsonObjectFromResponse(content)`:
* `false` and `0` are falsy, so the `if (!responseText) return null` guard
  returns `null` without throwing and the caller returns false at once;
* an array has `indexOf`/`lastIndexOf`/`slice`, so no call throws; the slice
  either fails the bracket checks or is an array whose string coercion starts
  with `"{,"`, which `JSON.parse` always rejects (caught, `null`), so the
  caller again returns false at once;
* `true`, a non-zero number or a plain object has no `indexOf` method, so the
  first string operation throws a TypeError, caught by the loop's `catch`,
  which takes the backoff path.
(`Json.null` never reaches this point: the `?? ''` turned it into `""`.) -/
def classifyAttempt (o : FetchOutcome) : AttemptRes :=
  match o with
  | FetchOutcome.netError => AttemptRes.retryable
  | FetchOutcome.response status body =>
    if status = 429 then AttemptRes.retryable
    else if !statusOk status then AttemptRes.terminal false
    else
      match body with
      | none => AttemptRes.retryable
      | some bodyJson =>
        match getMessageContent bodyJson with
        | Json.str content =>
          match extractJsonObjectFromResponse content.data with
          | none => AttemptRes.terminal false
          | some verificationResult =>
            match jget verificationResult "verified" with
            | some (Json.bool b) => AttemptRes.terminal b
            | _ => AttemptRes.terminal false
        | Json.bool b => if b then AttemptRes.retryable else AttemptRes.terminal false
        | Json.num n => if n = 0 then AttemptRes.terminal false else AttemptRes.retryable
        | Json.arr _ => AttemptRes.terminal false
        | Json.obj _ => AttemptRes.retryable
        | Json.null => AttemptRes.terminal false

/-- Observable behaviour of one run of the verification loop: the returned
boolean, the number of fetch attempts made, and the sleeps (in ms) performed
between attempts, in order. -/
structure VerifyTrace where
  result : Bool
  attempts : Nat
  sleeps : List Nat
deriving DecidableEq, Repr

/-- The `for (attempt = 1; attempt <= maxAttempts; ...)` loop of
`verifyEventWithQiniu`: `remaining` counts the attempts still allowed
(including the current one), `backoffMs` doubles after each sleep. -/
def verifyFrom (oracle : Nat → FetchOutcome) : Nat → Nat → Nat → VerifyTrace
  | _, 0, _ => ⟨false, 0, []⟩
  | attempt, remaining + 1, backoffMs =>
    match classifyAttempt (oracle attempt) with
    | AttemptRes.terminal b => ⟨b, 1, []⟩
    | AttemptRes.retryable =>
      if remaining = 0 then ⟨false, 1, []⟩
      else
        let t := verifyFrom oracle (attempt + 1) remaining (backoffMs * 2)
        ⟨t.result, t.attempts + 1, backoffMs :: t.sleeps⟩

/-- Shallow embedding of `DeepseekService.verifyEventWithQiniu`
(src/unnamed/part_000, lines 672-764).  The network is abstracted by an oracle
giving each attempt's outcome; the event and city argument only shape the
prompt text and cannot influence the control flow, so they are not model
parameters.  Without the Qiniu key the source returns `false` before any
request; otherwise it runs up to `maxAttempts = 3` attempts starting with a
1000 ms backoff. -/
def verifyEventWithQiniu (qiniuApiKey : Option String) (oracle : Nat → FetchOutcome) :
    VerifyTrace :=
  match qiniuApiKey with
  | none => ⟨false, 0, []⟩
  | some _ => verifyFrom oracle 1 3 1000

/-- Credentials of `DeepseekService` relevant to the control flow: the primary
DeepSeek key and the Qiniu verification key (`DEEPSEEK_API_KEY`,
`QINIU_API_KEY`). -/
structure DSConfig where
  apiKey : Option String
  qiniuApiKey : Option String

/-- Network oracle for a whole `fetchEventsFromAI` run: the primary call's
outcome and, for each candidate index, the per-attempt outcomes of its
verification call. -/
structure PipelineOracle where
  primary : FetchOutcome
  qiniu : Nat → Nat → FetchOutcome

/-- A network request issued by the pipeline, used to state that the
credential guard issues none. -/
inductive Req where
  | primaryReq : Req
  | verifyReq (candidate : Nat) (attempt : Nat) : Req
deriving DecidableEq, Repr

/-- Shallow embedding of `callDeepSeekAPI`/`callOpenAICompatibleAPI`
(src/unnamed/part_000, lines 518-581): `none` when the call throws (transport
error, non-2xx status, unreadable body) or when the extracted message content
is a non-string, on which the caller's `aiResponse?.trim()` throws a TypeError
(booleans, numbers, arrays and objects have no `trim`), caught by
`fetchEventsFromAI`; `some text` otherwise. -/
def callDeepSeekAPI (o : PipelineOracle) : Option String :=
  match o.primary with
  | FetchOutcome.netError => none
  | FetchOutcome.response status body =>
    if !statusOk status then none
    else
      match body with
      | none => none
      | some j =>
        match getMessageContent j with
        | Json.str s => some s
        | _ => none

/-- The sequential per-candidate verification loop of `parseAndValidateEvents`
(src/unnamed/part_000, lines 629-647), also recording the verification
requests issued (candidate index, attempt number). -/
def verifyLoop (qiniuApiKey : Option String) (qo : Nat → Nat → FetchOutcome) :
    Nat → List ParsedEvent → List ParsedEvent × List Req
  | _, [] => ([], [])
  | i, e :: t =>
    let trace := verifyEventWithQiniu qiniuApiKey (qo i)
    let reqs := (List.range trace.attempts).map (fun a => Req.verifyReq i (a + 1))
    let rest := verifyLoop qiniuApiKey qo (i + 1) t
    (if trace.result then e :: rest.1 else rest.1, reqs ++ rest.2)

/-- Shallow embedding of `parseAndValidateEvents` (src/unnamed/part_000, lines
586-648): blank responses yield nothing; otherwise try a whole-text
`JSON.parse`, falling back to `extractJsonArrayFromResponse ?? []`; non-array
data yields nothing; the items are schema-validated and then verified one by
one.  The `city` argument of the source only shapes the verification prompt
and is not a model parameter. -/
def parseAndValidateEvents (qiniuApiKey : Option String) (qo : Nat → Nat → FetchOutcome)
    (aiResponse : String) : List ParsedEvent × List Req :=
  if (trimChars aiResponse.data).isEmpty then ([], [])
  else
    let rawEventData : Json :=
      match jsonParseChars aiResponse.data with
      | some v => v
      | none => Json.arr ((extractJsonArrayFromResponse aiResponse.data).getD [])
    match rawEventData with
    | Json.arr items => verifyLoop qiniuApiKey qo 0 (validateRecords items).1
    | _ => ([], [])

/-- The result shape of `fetchEventsFromAI`. -/
structure EventFetchResult where
  items : List ParsedEvent
  targetDate : String
deriving DecidableEq, Repr

/-- Shallow embedding of `DeepseekService.fetchEventsFromAI`
(src/unnamed/part_000, lines 475-506), also returning the list of network
requests issued.  `targetDate ?? getDefaultTargetDate()` is modelled by an
explicit `defaultTargetDate` parameter (the source computes "7 days from now").
If either credential is missing the call returns `{ items: [], targetDate }`
at once; an exception escaping the primary call is caught and yields the same
empty result. -/
def fetchEventsFromAI (cfg : DSConfig) (targetDate : Option String)
    (defaultTargetDate : String) (o : PipelineOracle) : EventFetchResult × List Req :=
  let queryDate := targetDate.getD defaultTargetDate
  match cfg.apiKey with
  | none => (⟨[], queryDate⟩, [])
  | some _ =>
    match cfg.qiniuApiKey with
    | none => (⟨[], queryDate⟩, [])
    | some _ =>
      match callDeepSeekAPI o with
      | none => (⟨[], queryDate⟩, [Req.primaryReq])
      | some aiResponse =>
        let r := parseAndValidateEvents cfg.qiniuApiKey o.qiniu aiResponse
        (⟨r.1, queryDate⟩, Req.primaryReq :: r.2)

end DeepseekService

/-- Shallow embedding of the `Event` entity
(src/backend/src/events/event.entity.ts): the data columns and the unique
`hash`.  The surrogate `id` and the `created_at`/`updated_at` timestamps are
store-generated and do not influence any embedded control flow, so they are
not modelled. -/
structure EventRow where
  title : String
  type : String
  city : String
  venue : Option String
  address : Option String
  start_date : String
  end_date : Option String
  source_url : Option String
  price_range : Option String
  organizer : Option String
  hash : String
deriving DecidableEq, Repr

/-- Shallow embedding of `EventInput
= Omit<Event, 'id' | 'created_at' | 'updated_at' | 'hash'> & { hash?: string }`
(src/unnamed/part_003, line 12). -/
structure EventInput where
  title : String
  type : String
  city : String
  venue : Option String
  address : Option String
  start_date : String
  end_date : Option String
  source_url : Option String
  price_range : Option String
  organizer : Option String
  hash : Option String
deriving DecidableEq, Repr

/-- `UpsertResult` (src/unnamed/part_003, lines 17-20). -/
structure UpsertResult where
  inserted : Nat
  updated : Nat
deriving DecidableEq, Repr

/-- `EventQueryResult` (src/unnamed/part_003, lines 25-30). -/
structure EventQueryResult where
  items : List EventRow
  total : Nat
  page : Nat
  pageSize : Nat
deriving DecidableEq, Repr

/-- `QueryEventsDto` (src/backend/src/events/dto/query-events.dto.ts).  The
source fields `from`/`to` are named `fromDate`/`toDate` here because `from` is
reserved in Lean. -/
structure QueryEventsDto where
  type : Option String := none
  q : Option String := none
  city : Option String := none
  fromDate : Option String := none
  toDate : Option String := none
  page : Option Nat := none
  pageSize : Option Nat := none
deriving DecidableEq, Repr

/-- Modelled from the spec: `crypto.createHash('md5')...digest('hex')` is a
deterministic function of its input string ("cryptographic content hash of the
pipe-joined identity fields"); it is modelled as the identity, which preserves
determinism and equality of inputs (MD5's own collisions are not modelled). -/
def md5Hex (s : String) : String := s

/-- The per-row column overwrite of the insert-or-update statement: when the
hash matches, all mutable columns (the `orUpdate` list of the source: title,
type, city, venue, address, start_date, end_date, source_url, price_range,
organizer; `updated_at` is not modelled) are replaced by the incoming row's
values; the hash itself (the key) is untouched. -/
def overwriteRow (r x : EventRow) : EventRow :=
  if x.hash == r.hash then
    { x with
      title := r.title
      type := r.type
      city := r.city
      venue := r.venue
      address := r.address
      start_date := r.start_date
      end_date := r.end_date
      source_url := r.source_url
      price_range := r.price_range
      organizer := r.organizer }
  else x

/-- Modelled from the spec: one row of the store's native insert-or-update
primitive keyed by the unique `hash` column ("for each hash not already
present, insert; for each hash already present, overwrite the designated
mutable columns"), reporting whether a new row was inserted. -/
def dbUpsertRow (store : List EventRow) (r : EventRow) : List EventRow × Bool :=
  if store.any (fun x => x.hash == r.hash) then (store.map (overwriteRow r), false)
  else (store ++ [r], true)

/-- The set-based `insert().values(rows).orUpdate(...)` statement applied to a
row batch, returning the new store and the number of newly inserted rows
(which the source reads off as `result.identifiers.length`). -/
def executeUpsert (store : List EventRow) : List EventRow → List EventRow × Nat
  | [] => (store, 0)
  | r :: t =>
    let p := dbUpsertRow store r
    let rest := executeUpsert p.1 t
    (rest.1, (if p.2 then 1 else 0) + rest.2)

/-- Build the row inserted for an event input, with its hash filled in. -/
def toEventRow (e : EventInput) (h : String) : EventRow :=
  ⟨e.title, e.type, e.city, e.venue, e.address, e.start_date, e.end_date, e.source_url,
    e.price_range, e.organizer, h⟩

/-- The truthy `type` filter shared verbatim by both list implementations
(`andWhere('type = :type')` guarded by `if (q.type)`). -/
def filterByType (t : Option String) (xs : List EventRow) : List EventRow :=
  match otruthy t with
  | some ty => xs.filter (fun e => e.type == ty)
  | none => xs

/-- The truthy `city` filter shared verbatim by both list implementations. -/
def filterByCity (c : Option String) (xs : List EventRow) : List EventRow :=
  match otruthy c with
  | some city => xs.filter (fun e => e.city == city)
  | none => xs

/-- The truthy keyword filter shared verbatim by both list implementations:
`title LIKE %kw% OR venue LIKE %kw% OR address LIKE %kw%`. -/
def filterByKeyword (kw : Option String) (xs : List EventRow) : List EventRow :=
  match otruthy kw with
  | some k => xs.filter (fun e =>
      containsSub e.title.data k.data || likeContains e.venue k || likeContains e.address k)
  | none => xs

/-- Modelled from the spec: the store's `ORDER BY start_date ASC`, shared by
both list implementations. -/
def sortByStartDate (xs : List EventRow) : List EventRow :=
  List.insertionSort (fun a b => dateLe a.start_date b.start_date = true) xs

/-- `skip((page - 1) * pageSize).take(pageSize)`, shared by both list
implementations. -/
def paginate (page pageSize : Nat) (xs : List EventRow) : List EventRow :=
  (xs.drop ((page - 1) * pageSize)).take pageSize

namespace EventsService

/-- Shallow embedding of `EventsService.calculateEventHash`
(src/unnamed/part_003, lines 50-60): MD5 of
`[title, start_date, venue ?? '', city ?? ''].join('|')` (the `city ?? ''`
fallback is dead code under the non-nullable `city` type and is dropped). -/
def calculateEventHash (eventData : EventInput) : String :=
  md5Hex (String.intercalate "|"
    [eventData.title, eventData.start_date, eventData.venue.getD "", eventData.city])

/-- Shallow embedding of `EventsService.upsertManyEvents`
(src/unnamed/part_003, lines 72-111), acting on an explicit store: empty input
touches nothing; otherwise each event gets `hash ?? calculateEventHash(event)`
and the batch is upserted, with `inserted` the number of new rows and
`updated = batch size - inserted`. -/
def upsertManyEvents (eventInputs : List EventInput) (store : List EventRow) :
    UpsertResult × List EventRow :=
  if eventInputs.isEmpty then (⟨0, 0⟩, store)
  else
    let rows := eventInputs.map (fun e => toEventRow e (e.hash.getD (calculateEventHash e)))
    let r := executeUpsert store rows
    (⟨r.2, rows.length - r.2⟩, r.1)

/-- The backward-compatible alias `upsertMany` (src/unnamed/part_003, lines
203-205), which delegates to `upsertManyEvents`. -/
def upsertMany (items : List EventInput) (store : List EventRow) :
    UpsertResult × List EventRow :=
  upsertManyEvents items store

/-- `event.end_date >= :fromDate` with the `IS NULL` split of
`applyDateRangeFilter`: for single-day events (`end_date` NULL) the start date
stands in for the end date. -/
def endOnOrAfter (f : String) (e : EventRow) : Bool :=
  match e.end_date with
  | none => dateLe f e.start_date
  | some ed => dateLe f ed

/-- The per-event predicate of `EventsService.applyDateRangeFilter`
(src/unnamed/part_003, lines 181-201), keyed on the truthiness of `from` and
`to` exactly as the source's `if (options.from && options.to)` chain. -/
def matchesDateRange (fr tod : Option String) (e : EventRow) : Bool :=
  match otruthy fr, otruthy tod with
  | some f, some t => dateLe e.start_date t && endOnOrAfter f e
  | some f, none => endOnOrAfter f e
  | none, some t => dateLe e.start_date t
  | none, none => true

/-- Shallow embedding of `applyDateRangeFilter` as a store filter: when
neither bound is truthy no condition is added. -/
def applyDateRangeFilter (fr tod : Option String) (xs : List EventRow) : List EventRow :=
  match otruthy fr, otruthy tod with
  | none, none => xs
  | _, _ => xs.filter (matchesDateRange fr tod)

/-- Shallow embedding of `EventsService.findEventsWithPagination`
(src/unnamed/part_003, lines 121-165) over an explicit store: truthy filters
for type, city and keyword (title/venue/address `LIKE %kw%`), the date-range
filter, ordering by `start_date` ascending, pagination with
`page ?? 1` / `pageSize ?? 10`, and the total count ignoring pagination. -/
def findEventsWithPagination (store : List EventRow) (queryOptions : QueryEventsDto) :
    EventQueryResult :=
  let afterDate := applyDateRangeFilter queryOptions.fromDate queryOptions.toDate
    (filterByKeyword queryOptions.q
      (filterByCity queryOptions.city (filterByType queryOptions.type store)))
  ⟨paginate (queryOptions.page.getD 1) (queryOptions.pageSize.getD 10)
      (sortByStartDate afterDate),
    afterDate.length, queryOptions.page.getD 1, queryOptions.pageSize.getD 10⟩

/-- The backward-compatible alias `list` (src/unnamed/part_003, lines
207-209), which delegates to `findEventsWithPagination`. -/
def list (store : List EventRow) (queryOptions : QueryEventsDto) : EventQueryResult :=
  findEventsWithPagination store queryOptions

end EventsService

namespace BackendEventsService

/-- Shallow embedding of `EventsService.computeHash`
(src/backend/src/events/events.service.ts, lines 17-20): MD5 of the template
literal joining title, start_date, venue ?? '' and city with `|`. -/
def computeHash (e : EventInput) : String :=
  md5Hex (e.title ++ "|" ++ e.start_date ++ "|" ++ e.venue.getD "" ++ "|" ++ e.city)

/-- Shallow embedding of the older `EventsService.upsertMany`
(src/backend/src/events/events.service.ts, lines 22-37): same insert-or-update
by hash, with the hashes computed by `computeHash`. -/
def upsertMany (items : List EventInput) (store : List EventRow) :
    UpsertResult × List EventRow :=
  let rows := items.map (fun e => toEventRow e (e.hash.getD (computeHash e)))
  if rows.isEmpty then (⟨0, 0⟩, store)
  else
    let r := executeUpsert store rows
    (⟨r.2, rows.length - r.2⟩, r.1)

/-- The `from` condition of the older service:
`e.start_date >= :from` (no NULL split — it ignores `end_date`). -/
def filterFromOld (fr : Option String) (xs : List EventRow) : List EventRow :=
  match otruthy fr with
  | some f => xs.filter (fun e => dateLe f e.start_date)
  | none => xs

/-- The `to` condition of the older service:
`(end_date IS NULL AND start_date <= :to) OR (end_date IS NOT NULL AND
end_date <= :to)` — it requires the event to END on or before `to`. -/
def filterToOld (tod : Option String) (xs : List EventRow) : List EventRow :=
  match otruthy tod with
  | some t => xs.filter (fun e =>
      match e.end_date with
      | none => dateLe e.start_date t
      | some ed => dateLe ed t)
  | none => xs

/-- Shallow embedding of the older `EventsService.list`
(src/backend/src/events/events.service.ts, lines 39-55): identical type, city
and keyword filters, but `from` compares `start_date >= from` and `to`
compares the event's end (or start when NULL) `<= to`. -/
def list (store : List EventRow) (q : QueryEventsDto) : EventQueryResult :=
  let afterTo := filterToOld q.toDate
    (filterFromOld q.fromDate
      (filterByKeyword q.q (filterByCity q.city (filterByType q.type store))))
  ⟨paginate (q.page.getD 1) (q.pageSize.getD 10) (sortByStartDate afterTo),
    afterTo.length, q.page.getD 1, q.pageSize.getD 10⟩

end BackendEventsService

namespace EventsController

/-- Shallow embedding of `EventsController.getEventsList`
(src/backend/src/events/events.controller.ts, lines 34-43): the query is
forwarded to `findEventsWithPagination` with
`city: queryParams.city ?? '杭州'` (the nullish default does not replace an
explicit empty string). -/
def getEventsList (store : List EventRow) (queryParams : QueryEventsDto) : EventQueryResult :=
  EventsService.findEventsWithPagination store
    { queryParams with city := some (queryParams.city.getD "杭州") }

end EventsController

/-- C4: Dual-credential precondition — for every city and target date, if the
primary (DeepSeek) credential or the verification (Qiniu) credential is unset,
`fetchEventsFromAI` returns `{ items: [], targetDate }` immediately and issues
no network request to either endpoint. -/
theorem C4_dual_credential_precondition (cfg : DeepseekService.DSConfig)
    (targetDate : Option String) (defaultTargetDate : String)
    (o : DeepseekService.PipelineOracle)
    (h : cfg.apiKey = none ∨ cfg.qiniuApiKey = none) :
    DeepseekService.fetchEventsFromAI cfg targetDate defaultTargetDate o
      = (⟨[], targetDate.getD defaultTargetDate⟩, []) := by
  rcases h with h | h
  · simp [DeepseekService.fetchEventsFromAI, h]
  · cases hk : cfg.apiKey with
    | none => simp [DeepseekService.fetchEventsFromAI, hk]
    | some k => simp [DeepseekService.fetchEventsFromAI, hk, h]

/-- Witness for C4 at a concrete configuration missing the Qiniu key. -/
theorem C4_witness :
    DeepseekService.fetchEventsFromAI ⟨some "sk-primary", none⟩ (some "2025-03-01") "2025-03-08"
      ⟨DeepseekService.FetchOutcome.netError, fun _ _ => DeepseekService.FetchOutcome.netError⟩
      = (⟨[], "2025-03-01"⟩, []) :=
  C4_dual_credential_precondition _ _ _ _ (Or.inr rfl)

/-- C2: Verification retry on rate limiting — if every attempt is answered
with HTTP 429, `verifyEventWithQiniu` makes exactly 3 attempts, sleeping
1000 ms after the first and 2000 ms after the second, and returns false
without throwing (the model is a total function). -/
theorem C2_retry_on_429 (qiniuApiKey : String)
    (oracle : Nat → DeepseekService.FetchOutcome)
    (h429 : ∀ n, 1 ≤ n → n ≤ 3 →
      ∃ body, oracle n = DeepseekService.FetchOutcome.response 429 body) :
    DeepseekService.verifyEventWithQiniu (some qiniuApiKey) oracle
      = ⟨false, 3, [1000, 2000]⟩ := by
  obtain ⟨b1, h1⟩ := h429 1 (by omega) (by omega)
  obtain ⟨b2, h2⟩ := h429 2 (by omega) (by omega)
  obtain ⟨b3, h3⟩ := h429 3 (by omega) (by omega)
  have hc1 : DeepseekService.classifyAttempt (oracle 1) = DeepseekService.AttemptRes.retryable := by
    rw [h1]; simp [DeepseekService.classifyAttempt]
  have hc2 : DeepseekService.classifyAttempt (oracle 2) = DeepseekService.AttemptRes.retryable := by
    rw [h2]; simp [DeepseekService.classifyAttempt]
  have hc3 : DeepseekService.classifyAttempt (oracle 3) = DeepseekService.AttemptRes.retryable := by
    rw [h3]; simp [DeepseekService.classifyAttempt]
  show DeepseekService.verifyFrom oracle 1 3 1000 = ⟨false, 3, [1000, 2000]⟩
  rw [show (3 : Nat) = 2 + 1 from rfl]
  rw [DeepseekService.verifyFrom, hc1]
  simp only [Nat.succ_ne_zero, if_false]
  rw [show (2 : Nat) = 1 + 1 from rfl]
  rw [DeepseekService.verifyFrom, hc2]
  simp only [Nat.succ_ne_zero, if_false]
  rw [show (1 : Nat) = 0 + 1 from rfl]
  rw [DeepseekService.verifyFrom, hc3]
  simp

/-- Witness for C2 at a concrete oracle that always answers 429. -/
theorem C2_witness :
    DeepseekService.verifyEventWithQiniu (some "qiniu-key")
      (fun _ => DeepseekService.FetchOutcome.response 429 none)
      = ⟨false, 3, [1000, 2000]⟩ :=
  C2_retry_on_429 "qiniu-key" _ (fun _ _ _ => ⟨none, rfl⟩)

/-- C3: Date-range filter semantics of `applyDateRangeFilter` — with both
bounds, an event matches iff its active interval (`[start_date, end_date]`
when `end_date` is present, else the single day `start_date`) overlaps
`[from, to]`; with only `from`, iff the active interval ends on or after
`from`; with only `to`, iff `start_date` is on or before `to`. -/
theorem C3_date_range_semantics (e : EventRow) (f t : String) (hf : f ≠ "") (ht : t ≠ "") :
    (EventsService.matchesDateRange (some f) (some t) e
      = (dateLe e.start_date t && dateLe f (e.end_date.getD e.start_date))) ∧
    (EventsService.matchesDateRange (some f) none e
      = dateLe f (e.end_date.getD e.start_date)) ∧
    (EventsService.matchesDateRange none (some t) e = dateLe e.start_date t) := by
  refine ⟨?_, ?_, ?_⟩ <;>
    simp only [EventsService.matchesDateRange, EventsService.endOnOrAfter, otruthy,
      if_neg hf, if_neg ht] <;>
    cases e.end_date <;> simp

/-- Witness for C3: the spec's example event (2025-01-10 .. 2025-01-15)
matches [2025-01-14, 2025-01-20] and does not match [2025-01-16, 2025-01-20]. -/
theorem C3_witness :
    EventsService.matchesDateRange (some "2025-01-14") (some "2025-01-20")
      ⟨"Expo A", "expo", "杭州", none, none, "2025-01-10", some "2025-01-15",
        none, none, none, "h"⟩ = true ∧
    EventsService.matchesDateRange (some "2025-01-16") (some "2025-01-20")
      ⟨"Expo A", "expo", "杭州", none, none, "2025-01-10", some "2025-01-15",
        none, none, none, "h"⟩ = false := by
  constructor
  · exact (C3_date_range_semantics _ "2025-01-14" "2025-01-20"
      (by decide) (by decide)).1.trans (by decide)
  · exact (C3_date_range_semantics _ "2025-01-16" "2025-01-20"
      (by decide) (by decide)).1.trans (by decide)

/-- The first colliding event input of C9: venue `"V|x"`, city `"C"`. -/
def c9Event1 : EventInput :=
  ⟨"A", "expo", "C", some "V|x", none, "2025-01-01", none, none, none, none, none⟩

/-- The second colliding event input of C9: venue `"V"`, city `"x|C"`. -/
def c9Event2 : EventInput :=
  ⟨"A", "expo", "x|C", some "V", none, "2025-01-01", none, none, none, none, none⟩

/-- C9: the dedup identity is not injective — the two distinct identity tuples
above produce the same pipe-joined base string, hence the same hash under both
`calculateEventHash` and `computeHash`, and upserting both yields a single
stored row instead of two. -/
theorem C9_hash_collision :
    (c9Event1.title, c9Event1.start_date, c9Event1.venue, c9Event1.city)
      ≠ (c9Event2.title, c9Event2.start_date, c9Event2.venue, c9Event2.city) ∧
    EventsService.calculateEventHash c9Event1 = EventsService.calculateEventHash c9Event2 ∧
    BackendEventsService.computeHash c9Event1 = BackendEventsService.computeHash c9Event2 ∧
    (EventsService.upsertManyEvents [c9Event1, c9Event2] []).2.length = 1 := by
  refine ⟨by decide, by decide, by decide, by decide⟩

theorem filterByType_subset (t : Option String) (xs : List EventRow) :
    filterByType t xs ⊆ xs := by
  cases h : otruthy t <;> simp [filterByType, h, List.filter_subset]

theorem filterByCity_subset (c : Option String) (xs : List EventRow) :
    filterByCity c xs ⊆ xs := by
  cases h : otruthy c <;> simp [filterByCity, h, List.filter_subset]

theorem filterByKeyword_subset (kw : Option String) (xs : List EventRow) :
    filterByKeyword kw xs ⊆ xs := by
  cases h : otruthy kw <;> simp [filterByKeyword, h, List.filter_subset]

theorem applyDateRangeFilter_subset (fr tod : Option String) (xs : List EventRow) :
    EventsService.applyDateRangeFilter fr tod xs ⊆ xs := by
  cases hf : otruthy fr <;> cases ht : otruthy tod <;>
    simp [EventsService.applyDateRangeFilter, hf, ht, List.filter_subset]

theorem paginate_subset (p ps : Nat) (xs : List EventRow) : paginate p ps xs ⊆ xs :=
  fun _ ha => List.drop_subset _ _ (List.take_subset _ _ ha)

theorem sortByStartDate_mem (xs : List EventRow) (e : EventRow) :
    e ∈ sortByStartDate xs ↔ e ∈ xs :=
  (List.perm_insertionSort _ _).mem_iff

theorem filterByCity_mem_city (c : String) (hc : c ≠ "") (xs : List EventRow) (e : EventRow)
    (he : e ∈ filterByCity (some c) xs) : e.city = c := by
  simp only [filterByCity, otruthy] at he
  rw [if_neg hc] at he
  simp only [] at he
  simpa using (List.mem_filter.mp he).2

/-- C10: the public list endpoint silently defaults the city filter — when the
`city` query parameter is omitted, `getEventsList` queries with city `杭州`,
and every returned item has city `杭州`. -/
theorem C10_default_city (store : List EventRow) (q : QueryEventsDto) (h : q.city = none) :
    EventsController.getEventsList store q
      = EventsService.findEventsWithPagination store { q with city := some "杭州" } ∧
    ∀ e ∈ (EventsController.getEventsList store q).items, e.city = "杭州" := by
  have heq : EventsController.getEventsList store q
      = EventsService.findEventsWithPagination store { q with city := some "杭州" } := by
    unfold EventsController.getEventsList
    rw [h]
    rfl
  refine ⟨heq, ?_⟩
  intro e he
  rw [heq] at he
  unfold EventsService.findEventsWithPagination at he
  simp only [] at he
  have h1 : e ∈ sortByStartDate (EventsService.applyDateRangeFilter q.fromDate q.toDate
      (filterByKeyword q.q (filterByCity (QueryEventsDto.city { q with city := some "杭州" })
        (filterByType q.type store)))) := paginate_subset _ _ _ he
  rw [sortByStartDate_mem] at h1
  have h2 := applyDateRangeFilter_subset _ _ _ h1
  have h3 := filterByKeyword_subset _ _ h2
  exact filterByCity_mem_city "杭州" (by decide) _ e h3

/-- Witness for C10 at a concrete store and an empty query. -/
theorem C10_witness :
    EventsController.getEventsList
      [⟨"Beijing Expo", "expo", "北京", none, none, "2025-03-01", none, none, none, none, "h1"⟩]
      {}
      = EventsService.findEventsWithPagination
        [⟨"Beijing Expo", "expo", "北京", none, none, "2025-03-01", none, none, none, none, "h1"⟩]
        { ({} : QueryEventsDto) with city := some "杭州" } ∧
    ∀ e ∈ (EventsController.getEventsList
      [⟨"Beijing Expo", "expo", "北京", none, none, "2025-03-01", none, none, none, none, "h1"⟩]
      {}).items, e.city = "杭州" :=
  C10_default_city _ {} rfl

theorem overwriteRow_hash (r x : EventRow) : (overwriteRow r x).hash = x.hash := by
  unfold overwriteRow
  split <;> rfl

theorem dbUpsertRow_miss (store : List EventRow) (r : EventRow)
    (h : ∀ x ∈ store, x.hash ≠ r.hash) : dbUpsertRow store r = (store ++ [r], true) := by
  unfold dbUpsertRow
  rw [if_neg]
  simp only [List.any_eq_true, beq_iff_eq, not_exists]
  intro x
  rw [not_and]
  exact h x

theorem dbUpsertRow_hit_self (store : List EventRow) (r : EventRow) :
    dbUpsertRow (store ++ [r]) r = ((store ++ [r]).map (overwriteRow r), false) := by
  unfold dbUpsertRow
  rw [if_pos]
  simp [List.any_eq_true]

theorem upsert_twice_core (r : EventRow) (store : List EventRow)
    (h : ∀ x ∈ store, x.hash ≠ r.hash) :
    executeUpsert store [r] = (store ++ [r], 1) ∧
    (executeUpsert (store ++ [r]) [r]).2 = 0 ∧
    ((executeUpsert (store ++ [r]) [r]).1.filter (fun x => x.hash == r.hash)).length = 1 := by
  refine ⟨?_, ?_, ?_⟩
  · simp [executeUpsert, dbUpsertRow_miss store r h]
  · simp [executeUpsert, dbUpsertRow_hit_self store r]
  · simp only [executeUpsert, dbUpsertRow_hit_self store r]
    rw [List.map_append, List.filter_append]
    have hstorePart : ((store.map (overwriteRow r)).filter (fun x => x.hash == r.hash)) = [] := by
      rw [List.filter_eq_nil_iff]
      intro x hx
      obtain ⟨y, hy, rfl⟩ := List.mem_map.mp hx
      simp [overwriteRow_hash, h y hy]
    rw [hstorePart]
    simp [overwriteRow_hash]

/-- C1: Upsert idempotence — for any event whose (effective) hash is not yet
in the store, the first `upsertManyEvents` call inserts exactly one row
(`inserted = 1, updated = 0`), a second identical call reports
`inserted = 0, updated = 1`, and the store then holds exactly one row with
that hash; likewise for the older `upsertMany`. -/
theorem C1_upsert_idempotence (e : EventInput) (store : List EventRow)
    (h1 : ∀ x ∈ store, x.hash ≠ e.hash.getD (EventsService.calculateEventHash e))
    (h2 : ∀ x ∈ store, x.hash ≠ e.hash.getD (BackendEventsService.computeHash e)) :
    (EventsService.upsertManyEvents [e] store
        = (⟨1, 0⟩, store ++ [toEventRow e (e.hash.getD (EventsService.calculateEventHash e))]) ∧
      (EventsService.upsertManyEvents [e]
        (store ++ [toEventRow e (e.hash.getD (EventsService.calculateEventHash e))])).1
        = ⟨0, 1⟩ ∧
      ((EventsService.upsertManyEvents [e]
        (store ++ [toEventRow e (e.hash.getD (EventsService.calculateEventHash e))])).2.filter
          (fun x => x.hash == e.hash.getD (EventsService.calculateEventHash e))).length = 1) ∧
    (BackendEventsService.upsertMany [e] store
        = (⟨1, 0⟩, store ++ [toEventRow e (e.hash.getD (BackendEventsService.computeHash e))]) ∧
      (BackendEventsService.upsertMany [e]
        (store ++ [toEventRow e (e.hash.getD (BackendEventsService.computeHash e))])).1
        = ⟨0, 1⟩ ∧
      ((BackendEventsService.upsertMany [e]
        (store ++ [toEventRow e (e.hash.getD (BackendEventsService.computeHash e))])).2.filter
          (fun x => x.hash == e.hash.getD (BackendEventsService.computeHash e))).length = 1) := by
  have hr1 : (toEventRow e (e.hash.getD (EventsService.calculateEventHash e))).hash
      = e.hash.getD (EventsService.calculateEventHash e) := rfl
  have hr2 : (toEventRow e (e.hash.getD (BackendEventsService.computeHash e))).hash
      = e.hash.getD (BackendEventsService.computeHash e) := rfl
  have hc1 := upsert_twice_core (toEventRow e (e.hash.getD (EventsService.calculateEventHash e)))
    store (by rw [hr1]; exact h1)
  have hc2 := upsert_twice_core (toEventRow e (e.hash.getD (BackendEventsService.computeHash e)))
    store (by rw [hr2]; exact h2)
  constructor
  · refine ⟨?_, ?_, ?_⟩
    · simp [EventsService.upsertManyEvents, hc1.1]
    · simp [EventsService.upsertManyEvents]
      rw [show (executeUpsert
          (store ++ [toEventRow e (e.hash.getD (EventsService.calculateEventHash e))])
          [toEventRow e (e.hash.getD (EventsService.calculateEventHash e))]).2 = 0 from hc1.2.1]
      omega
    · simp [EventsService.upsertManyEvents]
      exact hc1.2.2
  · refine ⟨?_, ?_, ?_⟩
    · simp [BackendEventsService.upsertMany, hc2.1]
    · simp [BackendEventsService.upsertMany]
      rw [show (executeUpsert
          (store ++ [toEventRow e (e.hash.getD (BackendEventsService.computeHash e))])
          [toEventRow e (e.hash.getD (BackendEventsService.computeHash e))]).2 = 0 from hc2.2.1]
      omega
    · simp [BackendEventsService.upsertMany]
      exact hc2.2.2

/-- The concrete event used by the C1 witness. -/
def c1Event : EventInput :=
  ⟨"Expo A", "expo", "杭州", some "HZ Expo Center", none, "2025-03-01", none, none, none,
    none, none⟩

/-- Witness for C1 at the empty store. -/
theorem C1_witness :
    (EventsService.upsertManyEvents [c1Event] []
        = (⟨1, 0⟩, [] ++ [toEventRow c1Event
            (c1Event.hash.getD (EventsService.calculateEventHash c1Event))]) ∧
      (EventsService.upsertManyEvents [c1Event]
        ([] ++ [toEventRow c1Event
          (c1Event.hash.getD (EventsService.calculateEventHash c1Event))])).1 = ⟨0, 1⟩ ∧
      ((EventsService.upsertManyEvents [c1Event]
        ([] ++ [toEventRow c1Event
          (c1Event.hash.getD (EventsService.calculateEventHash c1Event))])).2.filter
            (fun x => x.hash
              == c1Event.hash.getD (EventsService.calculateEventHash c1Event))).length = 1) ∧
    (BackendEventsService.upsertMany [c1Event] []
        = (⟨1, 0⟩, [] ++ [toEventRow c1Event
            (c1Event.hash.getD (BackendEventsService.computeHash c1Event))]) ∧
      (BackendEventsService.upsertMany [c1Event]
        ([] ++ [toEventRow c1Event
          (c1Event.hash.getD (BackendEventsService.computeHash c1Event))])).1 = ⟨0, 1⟩ ∧
      ((BackendEventsService.upsertMany [c1Event]
        ([] ++ [toEventRow c1Event
          (c1Event.hash.getD (BackendEventsService.computeHash c1Event))])).2.filter
            (fun x => x.hash
              == c1Event.hash.getD (BackendEventsService.computeHash c1Event))).length = 1) :=
  C1_upsert_idempotence c1Event [] (by simp) (by simp)

/-- C8 counterexample: the two coexisting list implementations disagree.  For
the event spanning 2025-01-10..2025-01-15, the older `list` excludes it from
`from = 2025-01-14` (it compares `start_date >= from`) while
`findEventsWithPagination` includes it (the active interval ends after
`from`); symmetrically for `to = 2025-01-12`. -/
theorem C8_counterexample :
    BackendEventsService.list
        [⟨"Expo A", "expo", "杭州", none, none, "2025-01-10", some "2025-01-15",
          none, none, none, "h"⟩]
        { fromDate := some "2025-01-14" }
      ≠ EventsService.findEventsWithPagination
        [⟨"Expo A", "expo", "杭州", none, none, "2025-01-10", some "2025-01-15",
          none, none, none, "h"⟩]
        { fromDate := some "2025-01-14" } ∧
    BackendEventsService.list
        [⟨"Expo A", "expo", "杭州", none, none, "2025-01-10", some "2025-01-15",
          none, none, none, "h"⟩]
        { toDate := some "2025-01-12" }
      ≠ EventsService.findEventsWithPagination
        [⟨"Expo A", "expo", "杭州", none, none, "2025-01-10", some "2025-01-15",
          none, none, none, "h"⟩]
        { toDate := some "2025-01-12" } := by
  refine ⟨by decide, by decide⟩

/-- C8 amended: the two list implementations agree on every query in which
neither `from` nor `to` is truthy (the type, city, keyword filters, ordering
and pagination are identical); they differ exactly in the date-range
conditions. -/
theorem C8_amended_equivalence (store : List EventRow) (q : QueryEventsDto)
    (hf : otruthy q.fromDate = none) (ht : otruthy q.toDate = none) :
    BackendEventsService.list store q = EventsService.findEventsWithPagination store q := by
  unfold BackendEventsService.list EventsService.findEventsWithPagination
  rw [show BackendEventsService.filterFromOld q.fromDate
        (filterByKeyword q.q (filterByCity q.city (filterByType q.type store)))
      = filterByKeyword q.q (filterByCity q.city (filterByType q.type store)) from by
    simp [BackendEventsService.filterFromOld, hf]]
  rw [show BackendEventsService.filterToOld q.toDate
        (filterByKeyword q.q (filterByCity q.city (filterByType q.type store)))
      = filterByKeyword q.q (filterByCity q.city (filterByType q.type store)) from by
    simp [BackendEventsService.filterToOld, ht]]
  rw [show EventsService.applyDateRangeFilter q.fromDate q.toDate
        (filterByKeyword q.q (filterByCity q.city (filterByType q.type store)))
      = filterByKeyword q.q (filterByCity q.city (filterByType q.type store)) from by
    simp only [EventsService.applyDateRangeFilter, hf, ht]]

/-- Witness for the amended C8 at a concrete store and a date-free query. -/
theorem C8_witness :
    BackendEventsService.list
        [⟨"Expo A", "expo", "杭州", none, none, "2025-01-10", some "2025-01-15",
          none, none, none, "h"⟩]
        { type := some "expo" }
      = EventsService.findEventsWithPagination
        [⟨"Expo A", "expo", "杭州", none, none, "2025-01-10", some "2025-01-15",
          none, none, none, "h"⟩]
        { type := some "expo" } :=
  C8_amended_equivalence _ _ rfl rfl

/-- One optional field of a raw event record: absent, `null`, or a string. -/
def optField (k : String) (v : Option (Option String)) : List (String × Json) :=
  match v with
  | none => []
  | some none => [(k, Json.null)]
  | some (some s) => [(k, Json.str s)]

/-- The JSON value an optional field presents to a lookup. -/
def optJson : Option (Option String) → Option Json
  | none => none
  | some none => some Json.null
  | some (some s) => some (Json.str s)

/-- The member list of a raw event record with the given field contents:
`title`, `type` and `start_date` are strings, every other field is absent,
`null` or a string. -/
def mkEventMembers (title ty sd : String) (venue addr ed su pr org : Option (Option String)) :
    List (String × Json) :=
  [("title", Json.str title), ("type", Json.str ty)]
    ++ optField "venue" venue ++ optField "address" addr
    ++ [("start_date", Json.str sd)]
    ++ optField "end_date" ed ++ optField "source_url" su
    ++ optField "price_range" pr ++ optField "organizer" org

/-- A raw event record with the given field contents. -/
def mkEventJson (title ty sd : String) (venue addr ed su pr org : Option (Option String)) :
    Json :=
  Json.obj (mkEventMembers title ty sd venue addr ed su pr org)

theorem jlookup_append (A B : List (String × Json)) (k : String) :
    jlookup (A ++ B) k = (jlookup B k <|> jlookup A k) := by
  induction A with
  | nil =>
    cases hB : jlookup B k <;> simp [jlookup, hB]
  | cons p A ih =>
    obtain ⟨k1, v1⟩ := p
    cases hB : jlookup B k <;>
      cases hA : jlookup A k <;>
        simp [jlookup, List.cons_append, ih, hB, hA]

theorem jlookup_optField_ne (k key : String) (v : Option (Option String)) (h : k ≠ key) :
    jlookup (optField k v) key = none := by
  cases v with
  | none => rfl
  | some o => cases o <;> simp [optField, jlookup, h]

theorem jlookup_optField_self (k : String) (v : Option (Option String)) :
    jlookup (optField k v) k = optJson v := by
  cases v with
  | none => rfl
  | some o => cases o <;> simp [optField, jlookup, optJson]

theorem optStr_optJson (check : String → Bool) (v : Option (Option String))
    (h : ∀ s, v = some (some s) → check s = true) :
    optStr check (optJson v) = some v.join := by
  cases v with
  | none => rfl
  | some o =>
    cases o with
    | none => rfl
    | some s => simp [optStr, optJson, h s rfl, Option.join]

theorem reqStr_eq_some (w : Option Json) (s : String) (h : reqStr w = some s) :
    w = some (Json.str s) := by
  cases w with
  | none => simp [reqStr] at h
  | some v => cases v <;> simp_all [reqStr]

theorem jlookup_mk_title (title ty sd : String)
    (venue addr ed su pr org : Option (Option String)) :
    jlookup (mkEventMembers title ty sd venue addr ed su pr org) "title"
      = some (Json.str title) := by
  simp [mkEventMembers, jlookup_append, jlookup_optField_ne, jlookup]

theorem jlookup_mk_type (title ty sd : String)
    (venue addr ed su pr org : Option (Option String)) :
    jlookup (mkEventMembers title ty sd venue addr ed su pr org) "type"
      = some (Json.str ty) := by
  simp [mkEventMembers, jlookup_append, jlookup_optField_ne, jlookup]

theorem jlookup_mk_start (title ty sd : String)
    (venue addr ed su pr org : Option (Option String)) :
    jlookup (mkEventMembers title ty sd venue addr ed su pr org) "start_date"
      = some (Json.str sd) := by
  simp [mkEventMembers, jlookup_append, jlookup_optField_ne, jlookup]

theorem jlookup_mk_venue (title ty sd : String)
    (venue addr ed su pr org : Option (Option String)) :
    jlookup (mkEventMembers title ty sd venue addr ed su pr org) "venue" = optJson venue := by
  simp [mkEventMembers, jlookup_append, jlookup_optField_ne, jlookup_optField_self, jlookup]
  cases venue with
  | none => rfl
  | some o => cases o <;> rfl

theorem jlookup_mk_address (title ty sd : String)
    (venue addr ed su pr org : Option (Option String)) :
    jlookup (mkEventMembers title ty sd venue addr ed su pr org) "address" = optJson addr := by
  simp [mkEventMembers, jlookup_append, jlookup_optField_ne, jlookup_optField_self, jlookup]
  cases addr with
  | none => rfl
  | some o => cases o <;> rfl

theorem jlookup_mk_end_date (title ty sd : String)
    (venue addr ed su pr org : Option (Option String)) :
    jlookup (mkEventMembers title ty sd venue addr ed su pr org) "end_date" = optJson ed := by
  simp [mkEventMembers, jlookup_append, jlookup_optField_ne, jlookup_optField_self, jlookup]
  cases ed with
  | none => rfl
  | some o => cases o <;> rfl

theorem jlookup_mk_source_url (title ty sd : String)
    (venue addr ed su pr org : Option (Option String)) :
    jlookup (mkEventMembers title ty sd venue addr ed su pr org) "source_url" = optJson su := by
  simp [mkEventMembers, jlookup_append, jlookup_optField_ne, jlookup_optField_self, jlookup]
  cases su with
  | none => rfl
  | some o => cases o <;> rfl

theorem jlookup_mk_price_range (title ty sd : String)
    (venue addr ed su pr org : Option (Option String)) :
    jlookup (mkEventMembers title ty sd venue addr ed su pr org) "price_range" = optJson pr := by
  simp [mkEventMembers, jlookup_append, jlookup_optField_ne, jlookup_optField_self, jlookup]
  cases pr with
  | none => rfl
  | some o => cases o <;> rfl

theorem jlookup_mk_organizer (title ty sd : String)
    (venue addr ed su pr org : Option (Option String)) :
    jlookup (mkEventMembers title ty sd venue addr ed su pr org) "organizer" = optJson org := by
  simp [mkEventMembers, jlookup_append, jlookup_optField_ne, jlookup_optField_self, jlookup]
  cases org with
  | none => rfl
  | some o => cases o <;> rfl

theorem safeParse_accepts (title ty sd : String)
    (venue addr ed su pr org : Option (Option String))
    (htitle : title ≠ "") (hty : ty = "expo" ∨ ty = "concert")
    (hsd : isDatePattern sd = true)
    (hed : ∀ d, ed = some (some d) → isDatePattern d = true)
    (hsu : ∀ u, su = some (some u) → isValidURL u = true) :
    EventSchema.safeParse (mkEventJson title ty sd venue addr ed su pr org)
      = some ⟨title, ty, venue.join, addr.join, sd, ed.join, su.join, pr.join, org.join⟩ := by
  have hlen : 1 ≤ title.length := by
    rcases title with ⟨data⟩
    cases data with
    | nil => exact absurd rfl htitle
    | cons a l => simp [String.length]
  have hcond : (title.length ≥ 1 && (ty == "expo" || ty == "concert") && isDatePattern sd)
      = true := by
    rcases hty with rfl | rfl <;> simp [hlen, hsd]
  unfold EventSchema.safeParse mkEventJson
  simp only []
  rw [jlookup_mk_title, jlookup_mk_type, jlookup_mk_start]
  simp only [reqStr]
  rw [if_pos hcond]
  rw [jlookup_mk_end_date, jlookup_mk_venue, jlookup_mk_address, jlookup_mk_source_url,
    jlookup_mk_price_range, jlookup_mk_organizer]
  rw [optStr_optJson isDatePattern ed hed, optStr_optJson _ venue (fun _ _ => rfl),
    optStr_optJson _ addr (fun _ _ => rfl), optStr_optJson isValidURL su hsu,
    optStr_optJson _ pr (fun _ _ => rfl), optStr_optJson _ org (fun _ _ => rfl)]

theorem safeParse_some_shape (j : Json) (p : ParsedEvent)
    (h : EventSchema.safeParse j = some p) :
    ∃ s d, jget j "type" = some (Json.str s) ∧ (s = "expo" ∨ s = "concert") ∧
      jget j "start_date" = some (Json.str d) ∧ isDatePattern d = true := by
  unfold EventSchema.safeParse at h
  split at h
  case _ kvs =>
    split at h
    case _ title ty sd hT hTy hSd =>
      split at h
      case isTrue hcond =>
        have hty := reqStr_eq_some _ _ hTy
        have hsd := reqStr_eq_some _ _ hSd
        simp only [Bool.and_eq_true, Bool.or_eq_true, beq_iff_eq, decide_eq_true_eq] at hcond
        exact ⟨ty, sd, hty, hcond.1.2, hsd, hcond.2⟩
      case isFalse hcond => simp at h
    all_goals simp_all
  all_goals simp_all

theorem validateRecords_batch (xs ys : List Json) (bad : Json)
    (hbad : EventSchema.safeParse bad = none) :
    (DeepseekService.validateRecords (xs ++ bad :: ys)).1
      = (DeepseekService.validateRecords xs).1 ++ (DeepseekService.validateRecords ys).1 := by
  induction xs with
  | nil => simp [DeepseekService.validateRecords, hbad]
  | cons x t ih =>
    simp only [List.cons_append, DeepseekService.validateRecords]
    cases h : EventSchema.safeParse x <;> simp [h, ih]

/-- C6: Validator totality and accept/reject rule — `EventSchema.safeParse` is
a total function (it never throws); it accepts every record with a non-empty
title, type exactly `"expo"` or `"concert"`, a pattern-matching `start_date`,
an absent/null/pattern-matching `end_date`, an absent/null/valid-URL
`source_url` and free-text-or-null remaining fields; every accepted record has
an in-enum `type` and a pattern-matching `start_date` (so records violating
either are rejected); and a rejected record in a batch does not affect the
acceptance of its siblings. -/
theorem C6_validator :
    (∀ (title ty sd : String) (venue addr ed su pr org : Option (Option String)),
      title ≠ "" → (ty = "expo" ∨ ty = "concert") → isDatePattern sd = true →
      (∀ d, ed = some (some d) → isDatePattern d = true) →
      (∀ u, su = some (some u) → isValidURL u = true) →
      EventSchema.safeParse (mkEventJson title ty sd venue addr ed su pr org)
        = some ⟨title, ty, venue.join, addr.join, sd, ed.join, su.join, pr.join, org.join⟩) ∧
    (∀ (j : Json) (p : ParsedEvent), EventSchema.safeParse j = some p →
      ∃ s d, jget j "type" = some (Json.str s) ∧ (s = "expo" ∨ s = "concert") ∧
        jget j "start_date" = some (Json.str d) ∧ isDatePattern d = true) ∧
    (∀ (xs ys : List Json) (bad : Json), EventSchema.safeParse bad = none →
      (DeepseekService.validateRecords (xs ++ bad :: ys)).1
        = (DeepseekService.validateRecords xs).1 ++ (DeepseekService.validateRecords ys).1) :=
  ⟨safeParse_accepts, safeParse_some_shape, validateRecords_batch⟩

/-- Witness for C6: a concrete valid record is accepted with its normalised
fields, a wrong-type record is rejected, and the rejected record does not
affect its siblings in a batch. -/
theorem C6_witness :
    EventSchema.safeParse
        (mkEventJson "Expo A" "expo" "2025-03-01" (some none) none (some (some "2025-03-02"))
          (some (some "https://example.com/a")) none (some (some "Org")))
      = some ⟨"Expo A", "expo", none, none, "2025-03-01", some "2025-03-02",
          some "https://example.com/a", none, some "Org"⟩ ∧
    (DeepseekService.validateRecords
        [mkEventJson "Expo A" "expo" "2025-03-01" none none none none none none,
          mkEventJson "Bad" "party" "2025-03-01" none none none none none none,
          mkEventJson "Expo B" "concert" "2025-03-05" none none none none none none]).1
      = (DeepseekService.validateRecords
          [mkEventJson "Expo A" "expo" "2025-03-01" none none none none none none]).1
        ++ (DeepseekService.validateRecords
          [mkEventJson "Expo B" "concert" "2025-03-05" none none none none none none]).1 := by
  constructor
  · exact (C6_validator).1 "Expo A" "expo" "2025-03-01" (some none) none
      (some (some "2025-03-02")) (some (some "https://example.com/a")) none (some (some "Org"))
      (by decide) (Or.inl rfl) (by decide)
      (by intro d hd; cases hd; decide)
      (by intro u hu; cases hu; decide)
  · exact (C6_validator).2.2
      [mkEventJson "Expo A" "expo" "2025-03-01" none none none none none none]
      [mkEventJson "Expo B" "concert" "2025-03-05" none none none none none none]
      (mkEventJson "Bad" "party" "2025-03-01" none none none none none none)
      (by decide)

/-- C7: Extractor round-trip and totality — `JSON.parse` recovers any
stringified value; `extractJsonArrayFromResponse` recovers any stringified
array, also when wrapped in prose (no `[` before it, no `]` after it); and on
every input it returns either a parsed array or a definite no-value result
(the model is a total function, mirroring the source's catch-all `null`). -/
theorem C7_extractor_roundtrip :
    (∀ x : Json, jsonParseChars (strV x) = some x) ∧
    (∀ xs : List Json,
      DeepseekService.extractJsonArrayFromResponse (strV (Json.arr xs)) = some xs) ∧
    (∀ (pre post : List Char) (xs : List Json), '[' ∉ pre → ']' ∉ post →
      DeepseekService.extractJsonArrayFromResponse (pre ++ strV (Json.arr xs) ++ post)
        = some xs) ∧
    (∀ cs : List Char, DeepseekService.extractJsonArrayFromResponse cs = none ∨
      ∃ v, DeepseekService.extractJsonArrayFromResponse cs = some v) := by
  refine ⟨jsonParse_strV, DeepseekService.extractArr_strV,
    DeepseekService.extractArr_wrapped, ?_⟩
  intro cs
  cases h : DeepseekService.extractJsonArrayFromResponse cs with
  | none => exact Or.inl rfl
  | some v => exact Or.inr ⟨v, rfl⟩

/-- Witness for C7: a concrete stringified array is recovered exactly, and the
same array wrapped in prose is recovered as well. -/
theorem C7_witness :
    DeepseekService.extractJsonArrayFromResponse
        (strV (Json.arr [Json.null, Json.bool true, Json.num 42, Json.str "hi"]))
      = some [Json.null, Json.bool true, Json.num 42, Json.str "hi"] ∧
    DeepseekService.extractJsonArrayFromResponse
        ("Here is the data: ".data
          ++ strV (Json.arr [Json.null, Json.bool true, Json.num 42, Json.str "hi"])
          ++ " hope it helps".data)
      = some [Json.null, Json.bool true, Json.num 42, Json.str "hi"] :=
  ⟨C7_extractor_roundtrip.2.1 _,
    C7_extractor_roundtrip.2.2.1 _ _ _ (by decide) (by decide)⟩

namespace DeepseekService

end DeepseekService

